import Mathlib

/-!
Verification of the receiver orchestrator of openrsync (src/receiver.c).

The receiver is modelled as an executable state machine producing a trace of
observable events (wire writes/reads, filesystem calls, sandbox calls, the
readiness wait, and invocations of the uploader/downloader collaborators).
External collaborators (io primitives, flist_recv, flist_gen_local, flist_del,
mkpath, the uploader and the downloader) are out of scope per the design
document; their outcomes are supplied by an environment record `Env`, so every
control path of rsync_receiver is covered by quantifying over `Env`.
-/

set_option maxRecDepth 8000
set_option maxHeartbeats 1600000

/-- Option flags of the session (struct opts as used by receiver.c). -/
structure Opts where
  server : Bool
  dry_run : Bool
  del : Bool
  recursive : Bool
  preserve_times : Bool
  preserve_perms : Bool
deriving DecidableEq, Repr

/-- Session state fields used by receiver.c (sess->opts, sess->mplex_reads). -/
structure Sess where
  opts : Opts
  mplexReads : Bool
deriving DecidableEq, Repr

/-- One file-list entry: path (as components), st.mode, st.mtime. -/
structure FEntry where
  path : List String
  mode : Nat
  mtime : Int
deriving DecidableEq, Repr

/-- S_ISDIR from sys/stat.h: (mode & 0170000) == 0040000. -/
def S_ISDIR (m : Nat) : Bool := m &&& 61440 == 16384

/-- INFTIM: the infinite poll timeout (-1). -/
def INFTIM : Int := -1

/-- Observable events of one receiver session, in emission order. -/
inductive Event where
  | writeInt (v : Int)
  | readInt (v : Int)
  | flistRecv
  | warnEmpty
  | mkpath
  | umaskZero
  | openRoot
  | flistGenLocal
  | unveilRoot
  | unveilLock
  | flistDel
  | poll (timeo : Int)
  | uploader (i : Nat)
  | downloader
  | postDir (i : Nat)
  | utimensat (i : Nat)
  | fchmodat (i : Nat)
  | statsRecv
deriving DecidableEq, Repr

/-- External behavior of one iteration of the transfer loop: the poll outcome
(readiness and error bits of pfd[0] and pfd[1]) and the results and side
effects of the collaborator calls made in that iteration. -/
structure LoopStep where
  pollOk : Bool
  rev0Err : Bool
  rev1Err : Bool
  rev0Hup : Bool
  rev1Hup : Bool
  rev0In : Bool
  rev1In : Bool
  upResult : Int
  upNewI : Nat
  upNewPfd1 : Int
  upNewdir : List Nat
  mplexFlushOk : Bool
  mplexRemainZero : Bool
  downResult : Int
deriving DecidableEq, Repr

/-- Mutable state of the transfer loop: the TransferCursor i, pfd[1].fd,
the phase counter, and the set of indices flagged in the newdir array. -/
structure LoopState where
  i : Nat
  pfd1 : Int
  phase : Nat
  newdir : List Nat
deriving DecidableEq, Repr

/-- Outcome of one loop iteration, with the events it emitted. -/
inductive StepOut where
  | fatal (t : List Event)
  | assertFail (t : List Event)
  | brk (st : LoopState) (t : List Event)
  | cont (st : LoopState) (t : List Event)
deriving DecidableEq, Repr

/-- Outcome of the whole transfer loop. -/
inductive LoopOut where
  | fatal
  | assertFail
  | finished (st : LoopState)
deriving DecidableEq, Repr

/-- Outcome of the part of rsync_receiver before the transfer loop. -/
inductive PreOut where
  | failed
  | earlyOk
  | proceed (fl : List FEntry)
deriving DecidableEq, Repr

/-- Environment: outcomes of every external call rsync_receiver makes. -/
structure Env where
  pledgeOk : Bool
  writePreambleOk : Bool
  flistRecvResult : Option (List FEntry)
  ioerror : Option Int
  mkpathOk : Bool
  openOk : Bool
  genLocalOk : Bool
  dflNonEmpty : Bool
  unveilOk : Bool
  unveilLockOk : Bool
  flistDelOk : Bool
  callocOk : Bool
  script : List LoopStep
  utimesOk : Nat → Bool
  fchmodOk : Nat → Bool
  phaseWriteOk : Bool
  phaseAck : Option Int
  statsOk : Bool
  goodbyeOk : Bool

/-- The poll timeout of receiver.c line 243:
timeo = (i == flsz or pfd[1].fd != -1) ? INFTIM : 0. -/
def pollTimeo (flsz : Nat) (st : LoopState) : Int :=
  if st.i = flsz ∨ st.pfd1 ≠ -1 then INFTIM else 0

/-- Prepend an event to the trace of a step outcome. -/
def consTrace (e : Event) : StepOut → StepOut
  | StepOut.fatal t => StepOut.fatal (e :: t)
  | StepOut.assertFail t => StepOut.assertFail (e :: t)
  | StepOut.brk st t => StepOut.brk st (e :: t)
  | StepOut.cont st t => StepOut.cont st (e :: t)

/-- The trace carried by a step outcome. -/
def stepTrace : StepOut → List Event
  | StepOut.fatal t => t
  | StepOut.assertFail t => t
  | StepOut.brk _ t => t
  | StepOut.cont _ t => t

/-- The downloader section of the loop body (receiver.c lines 295-306):
negative result is fatal, zero asserts phase == 0 then increments the phase
and leaves the loop, positive continues. -/
def runDown (st : LoopState) (s : LoopStep) (t : List Event) : StepOut :=
  if s.downResult < 0 then StepOut.fatal (t ++ [Event.downloader])
  else if s.downResult = 0 then
    if st.phase ≠ 0 then StepOut.assertFail (t ++ [Event.downloader])
    else StepOut.brk ⟨st.i, st.pfd1, st.phase + 1, st.newdir⟩ (t ++ [Event.downloader])
  else StepOut.cont st (t ++ [Event.downloader])

/-- The inbound section of the loop body (receiver.c lines 287-315): if the
inbound stream is readable, drain multiplexed log records first and skip the
downloader when nothing remains, else run the downloader. -/
def afterUp (sess : Sess) (st : LoopState) (s : LoopStep) (t : List Event) : StepOut :=
  if s.rev0In = true then
    if sess.mplexReads = true then
      if s.mplexFlushOk = false then StepOut.fatal t
      else if s.mplexRemainZero = true then StepOut.cont st t
      else runDown st s t
    else runDown st s t
  else StepOut.cont st t

/-- One iteration of the loop body after the poll (receiver.c lines 245-315):
poll failure and error/hangup readiness bits are fatal (bits of pfd[1] matter
only while pfd[1].fd is not -1); the uploader runs when the cursor has not
exhausted the list or the per-file descriptor became readable. -/
def stepCore (sess : Sess) (flsz : Nat) (st : LoopState) (s : LoopStep) : StepOut :=
  if s.pollOk = false then StepOut.fatal []
  else if s.rev0Err = true then StepOut.fatal []
  else if s.rev1Err = true ∧ st.pfd1 ≠ -1 then StepOut.fatal []
  else if s.rev0Hup = true then StepOut.fatal []
  else if s.rev1Hup = true ∧ st.pfd1 ≠ -1 then StepOut.fatal []
  else if st.i < flsz ∨ (s.rev1In = true ∧ st.pfd1 ≠ -1) then
    if s.upResult < 0 then StepOut.fatal [Event.uploader st.i]
    else afterUp sess ⟨s.upNewI, s.upNewPfd1, st.phase, st.newdir ++ s.upNewdir⟩ s
      [Event.uploader st.i]
  else afterUp sess st s []

/-- One full iteration of the transfer loop (receiver.c lines 231-316):
compute the timeout, poll, then run the body. -/
def stepLoop (sess : Sess) (flsz : Nat) (st : LoopState) (s : LoopStep) : StepOut :=
  consTrace (Event.poll (pollTimeo flsz st)) (stepCore sess flsz st s)

/-- The transfer loop, driven by the scripted external behavior; an exhausted
script means the session never observed phase completion (fatal). -/
def runLoop (sess : Sess) (flsz : Nat) : LoopState → List LoopStep → List Event × LoopOut
  | _, [] => ([], LoopOut.fatal)
  | st, s :: rest =>
    match stepLoop sess flsz st s with
    | StepOut.fatal t => (t, LoopOut.fatal)
    | StepOut.assertFail t => (t, LoopOut.assertFail)
    | StepOut.brk st2 t => (t, LoopOut.finished st2)
    | StepOut.cont st2 t =>
      let r := runLoop sess flsz st2 rest
      (t ++ r.1, r.2)

/-- post_dir of receiver.c lines 42-81: a no-op unless recursive and not
dry-run; applies times when preserve_times, and mode when the directory is
newly created or preserve_perms. -/
def post_dir (sess : Sess) (f : FEntry) (newdir : Bool) (utOk fcOk : Bool) (idx : Nat) :
    List Event × Bool :=
  if sess.opts.recursive = false then ([], true)
  else if sess.opts.dry_run = true then ([], true)
  else
    if sess.opts.preserve_times = true then
      if utOk = false then ([Event.utimensat idx], false)
      else if newdir = true ∨ sess.opts.preserve_perms = true then
        if fcOk = false then ([Event.utimensat idx, Event.fchmodat idx], false)
        else ([Event.utimensat idx, Event.fchmodat idx], true)
      else ([Event.utimensat idx], true)
    else
      if newdir = true ∨ sess.opts.preserve_perms = true then
        if fcOk = false then ([Event.fchmodat idx], false)
        else ([Event.fchmodat idx], true)
      else ([], true)

/-- The directory fixup loop of receiver.c lines 322-327: walk the file list
in index order, calling post_dir on each directory entry; a failure aborts. -/
def postRun (sess : Sess) (ext : Env) (nd : List Nat) : List FEntry → Nat → List Event × Bool
  | [], _ => ([], true)
  | f :: rest, idx =>
    if S_ISDIR f.mode = false then postRun sess ext nd rest (idx + 1)
    else
      let pd := post_dir sess f (decide (idx ∈ nd)) (ext.utimesOk idx) (ext.fchmodOk idx) idx
      if pd.2 = false then (Event.postDir idx :: pd.1, false)
      else
        let r := postRun sess ext nd rest (idx + 1)
        ((Event.postDir idx :: pd.1) ++ r.1, r.2)

/-- The guard of receiver.c lines 320-321: fixup runs only when times or
permissions are preserved. -/
def postPhase (sess : Sess) (ext : Env) (fl : List FEntry) (nd : List Nat) :
    List Event × Bool :=
  if sess.opts.preserve_times = true ∨ sess.opts.preserve_perms = true then
    postRun sess ext nd fl 0
  else ([], true)

/-- Sequential composition of two stages: the second stage runs (and its
events appear) only when the first succeeded. -/
def pcat (a b : List Event × Bool) : List Event × Bool :=
  if a.2 = true then (a.1 ++ b.1, b.2) else (a.1, false)

/-- pledge (receiver.c line 103): no observable event, may fail. -/
def stgPledge (ext : Env) : List Event × Bool := ([], ext.pledgeOk)

/-- The zero preamble (receiver.c lines 110-114): written only when this
process is not the server. -/
def stgPreamble (sess : Sess) (ext : Env) : List Event × Bool :=
  if sess.opts.server = true then ([], true)
  else ([Event.writeInt 0], ext.writePreambleOk)

/-- flist_recv (receiver.c line 121). -/
def stgFlist (ext : Env) : List Event × Bool :=
  ([Event.flistRecv], (ext.flistRecvResult).isSome)

/-- The status integer read (receiver.c lines 124-130): the read may fail,
and a non-zero value fails the session. -/
def stgIoerr (ext : Env) : List Event × Bool :=
  match ext.ioerror with
  | none => ([], false)
  | some v => ([Event.readInt v], v = 0)

/-- mkpath of the destination root (receiver.c lines 148-158), skipped in
dry-run mode. -/
def stgMkpath (sess : Sess) (ext : Env) : List Event × Bool :=
  if sess.opts.dry_run = true then ([], true) else ([Event.mkpath], ext.mkpathOk)

/-- umask(0) then open of the root (receiver.c lines 165-173); the open is
skipped in dry-run mode. -/
def stgUmaskOpen (sess : Sess) (ext : Env) : List Event × Bool :=
  if sess.opts.dry_run = true then ([Event.umaskZero], true)
  else ([Event.umaskZero, Event.openRoot], ext.openOk)

/-- flist_gen_local (receiver.c lines 182-186), only when deleting
recursively. -/
def stgGenLocal (sess : Sess) (ext : Env) : List Event × Bool :=
  if sess.opts.del = true ∧ sess.opts.recursive = true
  then ([Event.flistGenLocal], ext.genLocalOk) else ([], true)

/-- unveil of the root (receiver.c lines 195-197). -/
def stgUnveilRoot (ext : Env) : List Event × Bool :=
  ([Event.unveilRoot], ext.unveilOk)

/-- unveil lock-down (receiver.c lines 198-201). -/
def stgUnveilLock (ext : Env) : List Event × Bool :=
  ([Event.unveilLock], ext.unveilLockOk)

/-- flist_del (receiver.c lines 205-209), only when a local list exists. -/
def stgDel (sess : Sess) (ext : Env) : List Event × Bool :=
  if sess.opts.del = true ∧ sess.opts.recursive = true ∧ ext.dflNonEmpty = true
  then ([Event.flistDel], ext.flistDelOk) else ([], true)

/-- calloc of the newdir array (receiver.c lines 220-223). -/
def stgCalloc (ext : Env) : List Event × Bool := ([], ext.callocOk)

/-- Stages of receiver.c lines 103-130 in order: pledge, preamble, file list,
status integer. -/
def preHead (sess : Sess) (ext : Env) : List Event × Bool :=
  pcat (stgPledge ext)
    (pcat (stgPreamble sess ext) (pcat (stgFlist ext) (stgIoerr ext)))

/-- Stages of receiver.c lines 148-229 in order: destination creation, umask
reset and root open, local-list enumeration, unveil of the root, unveil
lock-down, deletion pass, newdir allocation. -/
def preTail (sess : Sess) (ext : Env) : List Event × Bool :=
  pcat (stgMkpath sess ext)
    (pcat (stgUmaskOpen sess ext)
      (pcat (stgGenLocal sess ext)
        (pcat (stgUnveilRoot ext)
          (pcat (stgUnveilLock ext)
            (pcat (stgDel sess ext) (stgCalloc ext))))))

/-- The part of rsync_receiver before the transfer loop (receiver.c lines
103-229): the head stages, then the empty-list early exit (client only,
lines 132-137), then the tail stages. -/
def preloop (sess : Sess) (ext : Env) : List Event × PreOut :=
  match ext.flistRecvResult with
  | none => ((preHead sess ext).1, PreOut.failed)
  | some fl =>
    if (preHead sess ext).2 = false then ((preHead sess ext).1, PreOut.failed)
    else if fl.length = 0 ∧ sess.opts.server = false then
      ((preHead sess ext).1 ++ [Event.warnEmpty], PreOut.earlyOk)
    else
      ((preHead sess ext).1 ++ (preTail sess ext).1,
        if (preTail sess ext).2 = true then PreOut.proceed fl else PreOut.failed)

/-- Statistics reception (client only) and the final goodbye sentinel
(receiver.c lines 347-358). -/
def closeRest (sess : Sess) (ext : Env) (t : List Event) : List Event × Bool :=
  if sess.opts.server = false then
    if ext.statsOk = false then (t ++ [Event.statsRecv], false)
    else (t ++ [Event.statsRecv, Event.writeInt (-1)], ext.goodbyeOk)
  else (t ++ [Event.writeInt (-1)], ext.goodbyeOk)

/-- The close-out sequence of receiver.c lines 331-358: when phase is 1, send
the phase-end sentinel and require a -1 acknowledgement; then statistics
(client only) and the goodbye sentinel. -/
def closeout (sess : Sess) (ext : Env) (phase : Nat) : List Event × Bool :=
  if phase = 1 then
    if ext.phaseWriteOk = false then ([Event.writeInt (-1)], false)
    else
      match ext.phaseAck with
      | none => ([Event.writeInt (-1)], false)
      | some a =>
        if a ≠ -1 then ([Event.writeInt (-1), Event.readInt a], false)
        else closeRest sess ext [Event.writeInt (-1), Event.readInt a]
  else closeRest sess ext []

/-- The initial loop state: cursor 0, pfd[1].fd = -1, phase 0, no newdir
flags set. -/
def initLoopState : LoopState := ⟨0, -1, 0, []⟩

/-- rsync_receiver (receiver.c lines 88-369): pre-loop sequence, transfer
loop, directory fixup, close-out. Returns the event trace and the success
flag (rc nonzero). -/
def rsync_receiver (sess : Sess) (ext : Env) : List Event × Bool :=
  match preloop sess ext with
  | (t, PreOut.failed) => (t, false)
  | (t, PreOut.earlyOk) => (t, true)
  | (t, PreOut.proceed fl) =>
    match runLoop sess fl.length initLoopState ext.script with
    | (tl, LoopOut.fatal) => (t ++ tl, false)
    | (tl, LoopOut.assertFail) => (t ++ tl, false)
    | (tl, LoopOut.finished st) =>
      match postPhase sess ext fl st.newdir with
      | (tp, false) => (t ++ tl ++ tp, false)
      | (tp, true) =>
        match closeout sess ext st.phase with
        | (tc, ok) => (t ++ tl ++ tp ++ tc, ok)

/-- True when the components of p form a proper ancestor (containing
directory) of the components of q. -/
def pathAncestor (p q : List String) : Bool :=
  decide (p.length < q.length) && decide (q.take p.length = p)

/-- Entry of fl at index i (a default entry out of range). -/
def entAt (fl : List FEntry) (i : Nat) : FEntry := fl.getD i ⟨[], 0, 0⟩

/-- Modelled from the spec: the FileList construction (flist code, outside the
receiver source) emits entries in tree-walk order with children before their
parents, so every directory entry whose path is a proper ancestor of another
directory entry's path appears at a strictly larger index. -/
def childrenFirstB (fl : List FEntry) : Bool :=
  (List.range fl.length).all fun i =>
    (List.range fl.length).all fun j =>
      !(S_ISDIR (entAt fl i).mode && S_ISDIR (entAt fl j).mode &&
        pathAncestor (entAt fl i).path (entAt fl j).path) || decide (j < i)

/-- Events the pre-loop sequence may emit (the only writeInt is the zero
preamble). -/
def isPreEvent : Event → Bool
  | Event.writeInt v => v == 0
  | Event.readInt _ => true
  | Event.flistRecv => true
  | Event.warnEmpty => true
  | Event.mkpath => true
  | Event.umaskZero => true
  | Event.openRoot => true
  | Event.flistGenLocal => true
  | Event.unveilRoot => true
  | Event.unveilLock => true
  | Event.flistDel => true
  | _ => false

/-- Events the transfer loop may emit. -/
def isLoopEvent : Event → Bool
  | Event.poll _ => true
  | Event.uploader _ => true
  | Event.downloader => true
  | _ => false

/-- Events the directory fixup may emit. -/
def isPostEvent : Event → Bool
  | Event.postDir _ => true
  | Event.utimensat _ => true
  | Event.fchmodat _ => true
  | _ => false

/-- Events the close-out may emit (the only writeInt value is -1). -/
def isCloseEvent : Event → Bool
  | Event.writeInt v => v == -1
  | Event.readInt _ => true
  | Event.statsRecv => true
  | _ => false

/-- Filesystem-mutating or transfer activity: destination creation, umask
reset, root open, deletion, uploader or downloader work, directory fixup. -/
def isFsMutation : Event → Bool
  | Event.mkpath => true
  | Event.umaskZero => true
  | Event.openRoot => true
  | Event.flistDel => true
  | Event.uploader _ => true
  | Event.downloader => true
  | Event.postDir _ => true
  | Event.utimensat _ => true
  | Event.fchmodat _ => true
  | _ => false

/-- Readiness-wait events. -/
def isPollEvent : Event → Bool
  | Event.poll _ => true
  | _ => false

/-- Directory post-processing attempts (one per post_dir call). -/
def isPostDir : Event → Bool
  | Event.postDir _ => true
  | _ => false

/-- Directory metadata mutations (the syscalls post_dir may make). -/
def isPostMeta : Event → Bool
  | Event.utimensat _ => true
  | Event.fchmodat _ => true
  | _ => false

/-- True when no occurrence of x appears strictly after any occurrence of y. -/
def noAfter (x y : Event) : List Event → Bool
  | [] => true
  | e :: r => if e = y then decide (x ∉ r) && noAfter x y r else noAfter x y r

/-- The indices carried by the postDir events of a trace, in order. -/
def postDirSeq : List Event → List Nat
  | [] => []
  | Event.postDir i :: r => i :: postDirSeq r
  | _ :: r => postDirSeq r

/-- The indices of the directory entries of fl, offset by idx, in order. -/
def dirIndices : List FEntry → Nat → List Nat
  | [], _ => []
  | f :: r, idx =>
    if S_ISDIR f.mode then idx :: dirIndices r (idx + 1) else dirIndices r (idx + 1)

/-- An all-succeeding environment with an empty loop script. -/
def envBase : Env where
  pledgeOk := true
  writePreambleOk := true
  flistRecvResult := some []
  ioerror := some 0
  mkpathOk := true
  openOk := true
  genLocalOk := true
  dflNonEmpty := false
  unveilOk := true
  unveilLockOk := true
  flistDelOk := true
  callocOk := true
  script := []
  utimesOk := fun _ => true
  fchmodOk := fun _ => true
  phaseWriteOk := true
  phaseAck := some (-1)
  statsOk := true
  goodbyeOk := true

/-- A loop iteration in which the uploader finishes its single file and the
downloader then reports phase completion. -/
def stepDone : LoopStep where
  pollOk := true
  rev0Err := false
  rev1Err := false
  rev0Hup := false
  rev1Hup := false
  rev0In := true
  rev1In := false
  upResult := 1
  upNewI := 1
  upNewPfd1 := -1
  upNewdir := []
  mplexFlushOk := true
  mplexRemainZero := false
  downResult := 0

/-- A regular file entry (mode 0100644). -/
def fileA : FEntry := ⟨["a"], 33188, 1000⟩

/-- A directory entry (mode 040755). -/
def dirD : FEntry := ⟨["d"], 16877, 5⟩

/-- Deletion-enabled server-side session (opts: server, not dry-run, delete,
recursive). -/
def sessC1 : Sess := ⟨⟨true, false, true, true, false, false⟩, false⟩

/-- Environment for sessC1: one regular file, a non-empty local list, and an
empty loop script. -/
def envC1 : Env := { envBase with flistRecvResult := some [fileA], dflNonEmpty := true }

/-- Dry-run server-side session. -/
def sessC2 : Sess := ⟨⟨true, true, false, false, false, false⟩, false⟩

/-- Environment for sessC2: one regular file, an empty loop script. -/
def envC2 : Env := { envBase with flistRecvResult := some [fileA] }

/-- Top-level (client) session with every option off. -/
def sessC3 : Sess := ⟨⟨false, false, false, false, false, false⟩, false⟩

/-- Environment for sessC3: an empty file list received successfully. -/
def envC3 : Env := envBase

/-- Top-level (client) session with every option off. -/
def sessC5 : Sess := ⟨⟨false, false, false, false, false, false⟩, false⟩

/-- Environment for sessC5: an empty file list received successfully. -/
def envC5 : Env := envBase

/-- Top-level (client) session for the empty-list early exit. -/
def sessC6 : Sess := ⟨⟨false, false, false, false, false, false⟩, false⟩

/-- Environment for sessC6: an empty file list received successfully. -/
def envC6 : Env := envBase

/-- Server-side session for the non-zero status check. -/
def sessC7 : Sess := ⟨⟨true, false, false, false, false, false⟩, false⟩

/-- Environment for sessC7: the status integer reads as 1. -/
def envC7 : Env := { envBase with flistRecvResult := some [fileA], ioerror := some 1 }

/-- Dry-run recursive server session preserving times. -/
def sessC9 : Sess := ⟨⟨true, true, false, true, true, false⟩, false⟩

/-- Environment for sessC9: one directory entry and a one-iteration script in
which the downloader completes phase 1. -/
def envC9 : Env := { envBase with flistRecvResult := some [dirD], script := [stepDone] }

/-- Recursive client session preserving times and permissions, not dry-run. -/
def sessC4 : Sess := ⟨⟨false, false, false, true, true, true⟩, false⟩

/-- A child directory entry below dirParent. -/
def dirChild : FEntry := ⟨["s", "a"], 16877, 7⟩

/-- A parent directory entry. -/
def dirParent : FEntry := ⟨["s"], 16877, 7⟩

/-- Environment whose fixup calls all succeed. -/
def envC4 : Env := envBase

/-- Client session for the close-out sequence. -/
def sessC3w : Sess := ⟨⟨false, false, false, false, false, false⟩, false⟩

/-- Environment for sessC3w: one regular file and a one-iteration script in
which the downloader completes phase 1. -/
def envC3w : Env := { envBase with flistRecvResult := some [fileA], script := [stepDone] }



lemma runDown_events (st : LoopState) (s : LoopStep) (t : List Event)
    (h : ∀ e ∈ t, isLoopEvent e = true) :
    ∀ e ∈ stepTrace (runDown st s t), isLoopEvent e = true := by
  unfold runDown
  repeat' split
  all_goals intro e he
  all_goals simp only [stepTrace, List.mem_append, List.mem_singleton] at he
  all_goals rcases he with he | he
  all_goals first
    | exact h e he
    | (subst he; rfl)

lemma afterUp_events (sess : Sess) (st : LoopState) (s : LoopStep) (t : List Event)
    (h : ∀ e ∈ t, isLoopEvent e = true) :
    ∀ e ∈ stepTrace (afterUp sess st s t), isLoopEvent e = true := by
  unfold afterUp
  repeat' split
  all_goals first
    | exact runDown_events st s t h
    | exact h

lemma stepCore_events (sess : Sess) (flsz : Nat) (st : LoopState) (s : LoopStep) :
    ∀ e ∈ stepTrace (stepCore sess flsz st s), isLoopEvent e = true := by
  have hnil : ∀ e ∈ stepTrace (StepOut.fatal ([] : List Event)), isLoopEvent e = true := by
    intro e he; simp [stepTrace] at he
  have hup : ∀ e ∈ ([Event.uploader st.i] : List Event), isLoopEvent e = true := by
    intro e he; simp at he; subst he; rfl
  have hnope : ∀ e ∈ ([] : List Event), isLoopEvent e = true := by
    intro e he; simp at he
  unfold stepCore
  repeat' split
  · exact hnil
  · exact hnil
  · exact hnil
  · exact hnil
  · exact hnil
  · intro e he; simp [stepTrace] at he; subst he; rfl
  · exact afterUp_events sess _ s _ hup
  · exact afterUp_events sess st s [] hnope

lemma stepTrace_consTrace (e : Event) (o : StepOut) :
    stepTrace (consTrace e o) = e :: stepTrace o := by
  cases o <;> rfl

lemma stepLoop_events (sess : Sess) (flsz : Nat) (st : LoopState) (s : LoopStep) :
    ∀ e ∈ stepTrace (stepLoop sess flsz st s), isLoopEvent e = true := by
  intro e he
  unfold stepLoop at he
  rw [stepTrace_consTrace] at he
  rcases List.mem_cons.mp he with h1 | h1
  · subst h1; rfl
  · exact stepCore_events sess flsz st s e h1

lemma runLoop_cons (sess : Sess) (flsz : Nat) (st : LoopState) (s : LoopStep)
    (rest : List LoopStep) :
    runLoop sess flsz st (s :: rest) =
      match stepLoop sess flsz st s with
      | StepOut.fatal t => (t, LoopOut.fatal)
      | StepOut.assertFail t => (t, LoopOut.assertFail)
      | StepOut.brk st2 t => (t, LoopOut.finished st2)
      | StepOut.cont st2 t =>
        (t ++ (runLoop sess flsz st2 rest).1, (runLoop sess flsz st2 rest).2) := by
  rfl

lemma runLoop_events (sess : Sess) (flsz : Nat) (sc : List LoopStep) :
    ∀ st, ∀ e ∈ (runLoop sess flsz st sc).1, isLoopEvent e = true := by
  induction sc with
  | nil => intro st e he; simp [runLoop] at he
  | cons s rest ih =>
    intro st e he
    have h := stepLoop_events sess flsz st s
    rw [runLoop_cons] at he
    rcases hc : stepLoop sess flsz st s with t | t | ⟨st2, t⟩ | ⟨st2, t⟩
    all_goals rw [hc] at he h
    all_goals simp only [stepTrace] at h
    all_goals simp only [] at he
    · exact h e he
    · exact h e he
    · exact h e he
    · rcases List.mem_append.mp he with he1 | he1
      · exact h e he1
      · exact ih st2 e he1

/-- Phase discipline of one loop iteration outcome: the assertion cannot have
fired, a break carries phase 1, a continued state keeps phase 0. -/
def phaseStep : StepOut → Prop
  | StepOut.fatal _ => True
  | StepOut.assertFail _ => False
  | StepOut.brk st _ => st.phase = 1
  | StepOut.cont st _ => st.phase = 0

lemma runDown_phase (st : LoopState) (s : LoopStep) (t : List Event)
    (h : st.phase = 0) : phaseStep (runDown st s t) := by
  unfold runDown
  repeat' split
  all_goals simp_all [phaseStep]

lemma afterUp_phase (sess : Sess) (st : LoopState) (s : LoopStep) (t : List Event)
    (h : st.phase = 0) : phaseStep (afterUp sess st s t) := by
  unfold afterUp
  repeat' split
  all_goals first
    | exact runDown_phase st s t h
    | simp_all [phaseStep]

lemma stepCore_phase (sess : Sess) (flsz : Nat) (st : LoopState) (s : LoopStep)
    (h : st.phase = 0) : phaseStep (stepCore sess flsz st s) := by
  unfold stepCore
  repeat' split
  all_goals first
    | exact afterUp_phase sess st s [] h
    | (apply afterUp_phase; simpa using h)
    | simp_all [phaseStep]

lemma phaseStep_consTrace (e : Event) (o : StepOut) :
    phaseStep (consTrace e o) ↔ phaseStep o := by
  cases o <;> rfl

lemma stepLoop_phase (sess : Sess) (flsz : Nat) (st : LoopState) (s : LoopStep)
    (h : st.phase = 0) : phaseStep (stepLoop sess flsz st s) := by
  unfold stepLoop
  rw [phaseStep_consTrace]
  exact stepCore_phase sess flsz st s h

lemma runLoop_phase (sess : Sess) (flsz : Nat) (sc : List LoopStep) :
    ∀ st, st.phase = 0 →
      (runLoop sess flsz st sc).2 ≠ LoopOut.assertFail ∧
      (∀ st2, (runLoop sess flsz st sc).2 = LoopOut.finished st2 → st2.phase = 1) := by
  induction sc with
  | nil =>
    intro st _
    refine ⟨by simp [runLoop], ?_⟩
    intro st2 hh
    simp [runLoop] at hh
  | cons s rest ih =>
    intro st h
    have hp := stepLoop_phase sess flsz st s h
    rw [runLoop_cons]
    rcases hc : stepLoop sess flsz st s with t | t | ⟨st2, t⟩ | ⟨st2, t⟩
    all_goals rw [hc] at hp
    all_goals simp only [phaseStep] at hp
    · refine ⟨by simp, ?_⟩
      intro st3 hh
      simp at hh
    · refine ⟨by simp, ?_⟩
      intro st3 hh
      simp at hh
      exact hh ▸ hp
    · exact ih st2 hp

lemma isPostEvent_of_meta (e : Event) (h : isPostMeta e = true) : isPostEvent e = true := by
  cases e <;> simp_all [isPostMeta, isPostEvent]

lemma post_dir_events (sess : Sess) (f : FEntry) (newdir utOk fcOk : Bool) (idx : Nat) :
    ∀ e ∈ (post_dir sess f newdir utOk fcOk idx).1, isPostMeta e = true := by
  unfold post_dir
  repeat' split
  all_goals intro e he
  all_goals simp at he
  all_goals first
    | (subst he; rfl)
    | (rcases he with he | he <;> subst he <;> rfl)

lemma postRun_events (sess : Sess) (ext : Env) (nd : List Nat) :
    ∀ fl idx, ∀ e ∈ (postRun sess ext nd fl idx).1, isPostEvent e = true := by
  intro fl
  induction fl with
  | nil => intro idx e he; simp [postRun] at he
  | cons f rest ih =>
    intro idx e he
    simp only [postRun] at he
    split at he
    · exact ih (idx + 1) e he
    · split at he
      · rcases List.mem_cons.mp he with he1 | he1
        · subst he1; rfl
        · exact isPostEvent_of_meta e (post_dir_events sess f _ _ _ idx e he1)
      · rcases List.mem_append.mp he with he1 | he1
        · rcases List.mem_cons.mp he1 with he2 | he2
          · subst he2; rfl
          · exact isPostEvent_of_meta e (post_dir_events sess f _ _ _ idx e he2)
        · exact ih (idx + 1) e he1

lemma closeRest_events (sess : Sess) (ext : Env) (t : List Event)
    (h : ∀ e ∈ t, isCloseEvent e = true) :
    ∀ e ∈ (closeRest sess ext t).1, isCloseEvent e = true := by
  unfold closeRest
  repeat' split
  all_goals intro e he
  all_goals simp at he
  all_goals rcases he with he | he
  all_goals first
    | exact h e he
    | (subst he; decide)
    | (rcases he with he | he <;> subst he <;> decide)

lemma closeout_events (sess : Sess) (ext : Env) (phase : Nat) :
    ∀ e ∈ (closeout sess ext phase).1, isCloseEvent e = true := by
  have hbase : ∀ e ∈ ([Event.writeInt (-1), Event.readInt (-1)] : List Event),
      isCloseEvent e = true := by
    intro e he
    rcases List.mem_cons.mp he with he1 | he1
    · subst he1; decide
    · simp at he1; subst he1; decide
  unfold closeout
  repeat' split
  all_goals first
    | (intro e he; simp at he; rcases he with he | he <;> subst he <;> rfl)
    | (intro e he; simp at he; subst he; rfl)
    | (intro e he; simp at he; done)
    | (apply closeRest_events; intro e he; simp at he; done)
    | (apply closeRest_events
       intro e he
       rcases List.mem_cons.mp he with he1 | he1
       · subst he1; rfl
       · simp at he1; subst he1; rfl)


lemma noAfter_of_not_mem_x (x y : Event) (t : List Event) (h : x ∉ t) :
    noAfter x y t = true := by
  induction t with
  | nil => rfl
  | cons e r ih =>
    simp only [noAfter]
    have hxr : x ∉ r := fun hc => h (List.mem_cons_of_mem e hc)
    split
    · simp [hxr, ih hxr]
    · exact ih hxr

lemma noAfter_of_not_mem_y (x y : Event) (t : List Event) (h : y ∉ t) :
    noAfter x y t = true := by
  induction t with
  | nil => rfl
  | cons e r ih =>
    simp only [noAfter]
    have hyr : y ∉ r := fun hc => h (List.mem_cons_of_mem e hc)
    split
    · exact absurd (by simp_all) h
    · exact ih hyr

lemma noAfter_append (x y : Event) (t1 t2 : List Event)
    (h1 : noAfter x y t1 = true) (h2 : noAfter x y t2 = true)
    (h3 : y ∈ t1 → x ∉ t2) : noAfter x y (t1 ++ t2) = true := by
  induction t1 with
  | nil => simpa using h2
  | cons e r ih =>
    simp only [noAfter, List.append_eq] at h1 ⊢
    split at h1
    · rename_i hey
      simp only [if_pos hey]
      obtain ⟨hxr, hr1⟩ : (x ∉ r) ∧ noAfter x y r = true := by simpa using h1
      have hxt2 : x ∉ t2 := h3 (by simp [hey])
      have hxall : x ∉ r ++ t2 := by
        intro hc
        rcases List.mem_append.mp hc with hc | hc
        · exact hxr hc
        · exact hxt2 hc
      have hrec := ih hr1 (fun hy => h3 (List.mem_cons_of_mem e hy))
      simp [hxall, hrec]
    · rename_i hey
      simp only [if_neg hey]
      exact ih h1 (fun hy => h3 (List.mem_cons_of_mem e hy))

lemma preHead_mem (sess : Sess) (ext : Env) :
    ∀ e ∈ (preHead sess ext).1,
      e = Event.writeInt 0 ∨ e = Event.flistRecv ∨ ∃ v, e = Event.readInt v := by
  intro e he
  rcases hio : ext.ioerror with _ | v
  all_goals unfold preHead pcat stgPledge stgPreamble stgFlist stgIoerr at he
  all_goals simp only [hio] at he
  all_goals split_ifs at he <;> simp_all
  all_goals tauto

lemma preTail_mem (sess : Sess) (ext : Env) :
    ∀ e ∈ (preTail sess ext).1,
      e ∈ ([Event.mkpath, Event.umaskZero, Event.openRoot, Event.flistGenLocal,
            Event.unveilRoot, Event.unveilLock, Event.flistDel] : List Event) := by
  intro e he
  unfold preTail pcat stgMkpath stgUmaskOpen stgGenLocal stgUnveilRoot stgUnveilLock
    stgDel stgCalloc at he
  split_ifs at he <;> simp_all
  all_goals tauto

lemma preTail_gen_before_unveil (sess : Sess) (ext : Env) :
    noAfter Event.flistGenLocal Event.unveilRoot (preTail sess ext).1 = true := by
  unfold preTail pcat stgMkpath stgUmaskOpen stgGenLocal stgUnveilRoot stgUnveilLock
    stgDel stgCalloc
  split_ifs <;> simp [noAfter]

lemma preTail_unveil_before_del (sess : Sess) (ext : Env) :
    noAfter Event.unveilRoot Event.flistDel (preTail sess ext).1 = true := by
  unfold preTail pcat stgMkpath stgUmaskOpen stgGenLocal stgUnveilRoot stgUnveilLock
    stgDel stgCalloc
  split_ifs <;> simp [noAfter]

lemma preTail_lock_before_del (sess : Sess) (ext : Env) :
    noAfter Event.unveilLock Event.flistDel (preTail sess ext).1 = true := by
  unfold preTail pcat stgMkpath stgUmaskOpen stgGenLocal stgUnveilRoot stgUnveilLock
    stgDel stgCalloc
  split_ifs <;> simp [noAfter]

lemma preTail_del_lock (sess : Sess) (ext : Env) :
    Event.flistDel ∈ (preTail sess ext).1 → Event.unveilLock ∈ (preTail sess ext).1 := by
  intro h
  unfold preTail pcat stgMkpath stgUmaskOpen stgGenLocal stgUnveilRoot stgUnveilLock
    stgDel stgCalloc at h ⊢
  split_ifs at h ⊢ <;> simp_all

lemma preloop_cases (sess : Sess) (ext : Env) :
    (preloop sess ext).1 = (preHead sess ext).1 ∨
    (preloop sess ext).1 = (preHead sess ext).1 ++ [Event.warnEmpty] ∨
    (preloop sess ext).1 = (preHead sess ext).1 ++ (preTail sess ext).1 := by
  unfold preloop
  rcases hfl : ext.flistRecvResult with _ | fl
  · simp
  · repeat' split
    all_goals simp

lemma postPhase_events (sess : Sess) (ext : Env) (fl : List FEntry) (nd : List Nat) :
    ∀ e ∈ (postPhase sess ext fl nd).1, isPostEvent e = true := by
  unfold postPhase
  split
  · exact postRun_events sess ext nd fl 0
  · intro e he; simp at he

lemma receiver_split (sess : Sess) (ext : Env) :
    ∃ t2, (rsync_receiver sess ext).1 = (preloop sess ext).1 ++ t2 ∧
      ∀ e ∈ t2, isLoopEvent e = true ∨ isPostEvent e = true ∨ isCloseEvent e = true := by
  unfold rsync_receiver
  rcases hp : preloop sess ext with ⟨t, o⟩
  rcases o with _ | _ | fl
  · exact ⟨[], by simp, by simp⟩
  · exact ⟨[], by simp, by simp⟩
  · rcases hr : runLoop sess fl.length initLoopState ext.script with ⟨tl, lo⟩
    have hlt : ∀ e ∈ tl, isLoopEvent e = true := by
      intro e he
      have h2 := runLoop_events sess fl.length ext.script initLoopState e
      rw [hr] at h2
      exact h2 he
    rcases lo with _ | _ | st
    · exact ⟨tl, by simp [hr], fun e he => Or.inl (hlt e he)⟩
    · exact ⟨tl, by simp [hr], fun e he => Or.inl (hlt e he)⟩
    · rcases hpp : postPhase sess ext fl st.newdir with ⟨tp, ok⟩
      have hpt : ∀ e ∈ tp, isPostEvent e = true := by
        intro e he
        have h2 := postPhase_events sess ext fl st.newdir e
        rw [hpp] at h2
        exact h2 he
      have hmem2 : ∀ e ∈ tl ++ tp,
          isLoopEvent e = true ∨ isPostEvent e = true ∨ isCloseEvent e = true := by
        intro e he
        rcases List.mem_append.mp he with h1 | h1
        · exact Or.inl (hlt e h1)
        · exact Or.inr (Or.inl (hpt e h1))
      rcases ok with _ | _
      · exact ⟨tl ++ tp, by simp [hr, hpp], hmem2⟩
      · rcases hc : closeout sess ext st.phase with ⟨tc, okc⟩
        have hct : ∀ e ∈ tc, isCloseEvent e = true := by
          intro e he
          have h2 := closeout_events sess ext st.phase e
          rw [hc] at h2
          exact h2 he
        refine ⟨tl ++ tp ++ tc, by simp [hr, hpp, hc], ?_⟩
        intro e he
        rcases List.mem_append.mp he with h1 | h1
        · exact hmem2 e h1
        · exact Or.inr (Or.inr (hct e h1))

lemma split_tail_not_setup (e : Event)
    (h : isLoopEvent e = true ∨ isPostEvent e = true ∨ isCloseEvent e = true) :
    e ≠ Event.flistGenLocal ∧ e ≠ Event.unveilRoot ∧ e ≠ Event.unveilLock ∧
    e ≠ Event.flistDel ∧ e ≠ Event.mkpath ∧ e ≠ Event.openRoot ∧
    e ≠ Event.writeInt 0 ∧ e ≠ Event.umaskZero := by
  cases e <;> simp_all [isLoopEvent, isPostEvent, isCloseEvent]

lemma preHead_not_mem (sess : Sess) (ext : Env) (e : Event)
    (hne1 : e ≠ Event.writeInt 0) (hne2 : e ≠ Event.flistRecv)
    (hne3 : ∀ v, e ≠ Event.readInt v) : e ∉ (preHead sess ext).1 := by
  intro hm
  rcases preHead_mem sess ext e hm with h | h | ⟨v, h⟩
  · exact hne1 h
  · exact hne2 h
  · exact hne3 v h

lemma preloop_noAfter (sess : Sess) (ext : Env) (x y : Event)
    (hyH : y ∉ (preHead sess ext).1) (hyW : y ≠ Event.warnEmpty)
    (hT : noAfter x y (preTail sess ext).1 = true) :
    noAfter x y (preloop sess ext).1 = true := by
  rcases preloop_cases sess ext with h | h | h <;> rw [h]
  · exact noAfter_of_not_mem_y x y _ hyH
  · apply noAfter_of_not_mem_y
    intro hc
    rcases List.mem_append.mp hc with hc1 | hc1
    · exact hyH hc1
    · simp at hc1
      exact hyW hc1
  · refine noAfter_append x y _ _ (noAfter_of_not_mem_y x y _ hyH) hT ?_
    intro hy
    exact absurd hy hyH

lemma receiver_noAfter (sess : Sess) (ext : Env) (x y : Event)
    (hpre : noAfter x y (preloop sess ext).1 = true)
    (hx : ∀ e, (isLoopEvent e = true ∨ isPostEvent e = true ∨ isCloseEvent e = true) →
      e ≠ x) :
    noAfter x y (rsync_receiver sess ext).1 = true := by
  obtain ⟨t2, heq, hcls⟩ := receiver_split sess ext
  rw [heq]
  have hxt : x ∉ t2 := by
    intro hc
    exact hx x (hcls x hc) rfl
  exact noAfter_append x y _ _ hpre (noAfter_of_not_mem_x x y _ hxt) (fun _ => hxt)

lemma flistDel_not_mem_preHead (sess : Sess) (ext : Env) :
    Event.flistDel ∉ (preHead sess ext).1 :=
  preHead_not_mem sess ext _ (by simp) (by simp) (fun v => by simp)

lemma unveilRoot_not_mem_preHead (sess : Sess) (ext : Env) :
    Event.unveilRoot ∉ (preHead sess ext).1 :=
  preHead_not_mem sess ext _ (by simp) (by simp) (fun v => by simp)

lemma preloop_del_lock (sess : Sess) (ext : Env) :
    Event.flistDel ∈ (preloop sess ext).1 → Event.unveilLock ∈ (preloop sess ext).1 := by
  intro hd
  rcases preloop_cases sess ext with h | h | h <;> rw [h] at hd ⊢
  · exact absurd hd (flistDel_not_mem_preHead sess ext)
  · rcases List.mem_append.mp hd with h1 | h1
    · exact absurd h1 (flistDel_not_mem_preHead sess ext)
    · simp at h1
  · rcases List.mem_append.mp hd with h1 | h1
    · exact absurd h1 (flistDel_not_mem_preHead sess ext)
    · exact List.mem_append_right _ (preTail_del_lock sess ext h1)

/-- C1 counterexample: a deletion-enabled session (recursive and delete set)
in which the deletion pass (flist_del) is observed strictly after the unveil
of the destination root, refuting the claim that the entire Deleter pass
completes before the sandbox boundary is installed. -/
theorem C1_counterexample :
    sessC1.opts.del = true ∧ sessC1.opts.recursive = true ∧
    Event.flistDel ∈ (rsync_receiver sessC1 envC1).1 ∧
    noAfter Event.flistDel Event.unveilRoot (rsync_receiver sessC1 envC1).1 = false := by
  decide

/-- C1 (amended): in every session, the local tree enumeration
(flist_gen_local) never occurs after the unveil of the destination root, and
the removal pass (flist_del) occurs only after both the unveil and its
lock-down, never before them. -/
theorem C1_deletion_sandbox_order (sess : Sess) (ext : Env) :
    noAfter Event.flistGenLocal Event.unveilRoot (rsync_receiver sess ext).1 = true ∧
    noAfter Event.unveilRoot Event.flistDel (rsync_receiver sess ext).1 = true ∧
    noAfter Event.unveilLock Event.flistDel (rsync_receiver sess ext).1 = true ∧
    (!(decide (Event.flistDel ∈ (rsync_receiver sess ext).1)) ||
      decide (Event.unveilLock ∈ (rsync_receiver sess ext).1)) = true := by
  refine ⟨?_, ?_, ?_, ?_⟩
  · exact receiver_noAfter sess ext _ _
      (preloop_noAfter sess ext _ _ (unveilRoot_not_mem_preHead sess ext) (by simp)
        (preTail_gen_before_unveil sess ext))
      (fun e h => (split_tail_not_setup e h).1)
  · exact receiver_noAfter sess ext _ _
      (preloop_noAfter sess ext _ _ (flistDel_not_mem_preHead sess ext) (by simp)
        (preTail_unveil_before_del sess ext))
      (fun e h => (split_tail_not_setup e h).2.1)
  · exact receiver_noAfter sess ext _ _
      (preloop_noAfter sess ext _ _ (flistDel_not_mem_preHead sess ext) (by simp)
        (preTail_lock_before_del sess ext))
      (fun e h => (split_tail_not_setup e h).2.2.1)
  · by_cases hd : Event.flistDel ∈ (rsync_receiver sess ext).1
    · obtain ⟨t2, heq, hcls⟩ := receiver_split sess ext
      have hdp : Event.flistDel ∈ (preloop sess ext).1 := by
        rw [heq] at hd
        rcases List.mem_append.mp hd with h1 | h1
        · exact h1
        · exact absurd rfl ((split_tail_not_setup _ (hcls _ h1)).2.2.2.1)
      have hl : Event.unveilLock ∈ (rsync_receiver sess ext).1 := by
        rw [heq]
        exact List.mem_append_left _ (preloop_del_lock sess ext hdp)
      simp [hd, hl]
    · simp [hd]

/-- C8: every transfer-loop iteration polls with the timeout of receiver.c
line 243, and that timeout realizes the spec wait policy: infinite exactly
when the cursor equals the list length or a per-file descriptor is pending,
zero (a non-blocking poll) exactly when entries remain and no per-file
descriptor is pending. -/
theorem C8_poll_timeout (sess : Sess) (flsz : Nat) (st : LoopState) (s : LoopStep) :
    (∃ r, stepTrace (stepLoop sess flsz st s) = Event.poll (pollTimeo flsz st) :: r) ∧
    (pollTimeo flsz st = INFTIM ↔ (st.i = flsz ∨ st.pfd1 ≠ -1)) ∧
    (pollTimeo flsz st = 0 ↔ (st.i ≠ flsz ∧ st.pfd1 = -1)) := by
  refine ⟨⟨stepTrace (stepCore sess flsz st s), ?_⟩, ?_, ?_⟩
  · unfold stepLoop
    rw [stepTrace_consTrace]
  · unfold pollTimeo INFTIM
    split
    · rename_i h
      simp [h]
    · rename_i h
      constructor
      · intro h0
        exact absurd h0 (by decide)
      · intro hc
        exact absurd hc h
  · unfold pollTimeo INFTIM
    split
    · rename_i h
      constructor
      · intro h0
        exact absurd h0 (by decide)
      · intro hc
        rcases h with h | h
        · exact absurd h hc.1
        · exact absurd hc.2 h
    · rename_i h
      push_neg at h
      simp [h.1, h.2]

/-- C10: the transfer loop starts in the initial state, whose phase counter
is 0; on the iteration in which the downloader returns zero the phase is
still 0, so the assertion of receiver.c line 301 never fails, and a finished
loop has incremented the phase exactly once, to 1. -/
theorem C10_phase_assertion (sess : Sess) (flsz : Nat) (sc : List LoopStep) :
    (runLoop sess flsz initLoopState sc).2 ≠ LoopOut.assertFail ∧
    (∀ st2, (runLoop sess flsz initLoopState sc).2 = LoopOut.finished st2 →
      st2.phase = 1) :=
  runLoop_phase sess flsz sc initLoopState rfl

lemma preHead_ok (sess : Sess) (ext : Env) (fl : List FEntry)
    (hpl : ext.pledgeOk = true) (hwp : ext.writePreambleOk = true)
    (hfl : ext.flistRecvResult = some fl) (hio : ext.ioerror = some 0) :
    (preHead sess ext).2 = true := by
  unfold preHead pcat stgPledge stgPreamble stgFlist stgIoerr
  rw [hfl, hio]
  by_cases hs : sess.opts.server = true <;> simp [hs, hpl, hwp]

lemma preloop_full (sess : Sess) (ext : Env) (fl : List FEntry)
    (hfl : ext.flistRecvResult = some fl)
    (hok : (preHead sess ext).2 = true)
    (hne : ¬(fl.length = 0 ∧ sess.opts.server = false)) :
    (preloop sess ext).1 = (preHead sess ext).1 ++ (preTail sess ext).1 := by
  unfold preloop
  rw [hfl]
  simp only [List.length_eq_zero] at hne
  simp [hok, hne]

lemma preTail_unveil_mem (sess : Sess) (ext : Env)
    (hdry : sess.opts.dry_run = true) (hgen : ext.genLocalOk = true)
    (hunv : ext.unveilOk = true) :
    Event.unveilRoot ∈ (preTail sess ext).1 ∧
    Event.unveilLock ∈ (preTail sess ext).1 := by
  unfold preTail pcat stgMkpath stgUmaskOpen stgGenLocal stgUnveilRoot stgUnveilLock
    stgDel stgCalloc
  split_ifs <;> simp_all

lemma preTail_dry_no_fs (sess : Sess) (ext : Env)
    (hdry : sess.opts.dry_run = true) :
    Event.mkpath ∉ (preTail sess ext).1 ∧ Event.openRoot ∉ (preTail sess ext).1 := by
  unfold preTail pcat stgMkpath stgUmaskOpen stgGenLocal stgUnveilRoot stgUnveilLock
    stgDel stgCalloc
  split_ifs <;> simp_all

/-- C2 counterexample: a dry-run session in which the sandbox narrowing
(unveil of the destination root, then lock-down) is attempted anyway,
refuting the claim that it is not attempted in simulation mode. -/
theorem C2_counterexample :
    sessC2.opts.dry_run = true ∧
    Event.unveilRoot ∈ (rsync_receiver sessC2 envC2).1 ∧
    Event.unveilLock ∈ (rsync_receiver sessC2 envC2).1 := by
  decide

/-- C2 (amended): the sandbox narrowing is attempted by every session that
reaches it, in simulation mode as well; what simulation mode suppresses is
destination-root creation (mkpath) and the opening of the root directory. -/
theorem C2_dry_run_sandbox (sess : Sess) (ext : Env) (fl : List FEntry)
    (hdry : sess.opts.dry_run = true)
    (hpl : ext.pledgeOk = true) (hwp : ext.writePreambleOk = true)
    (hfl : ext.flistRecvResult = some fl) (hio : ext.ioerror = some 0)
    (hne : ¬(fl.length = 0 ∧ sess.opts.server = false))
    (hgen : ext.genLocalOk = true) (hunv : ext.unveilOk = true) :
    Event.unveilRoot ∈ (rsync_receiver sess ext).1 ∧
    Event.unveilLock ∈ (rsync_receiver sess ext).1 ∧
    Event.mkpath ∉ (rsync_receiver sess ext).1 ∧
    Event.openRoot ∉ (rsync_receiver sess ext).1 := by
  obtain ⟨t2, heq, hcls⟩ := receiver_split sess ext
  have hfull := preloop_full sess ext fl hfl
    (preHead_ok sess ext fl hpl hwp hfl hio) hne
  have hur := preTail_unveil_mem sess ext hdry hgen hunv
  have hnofs := preTail_dry_no_fs sess ext hdry
  rw [heq, hfull]
  refine ⟨?_, ?_, ?_, ?_⟩
  · exact List.mem_append_left _ (List.mem_append_right _ hur.1)
  · exact List.mem_append_left _ (List.mem_append_right _ hur.2)
  · intro hc
    rcases List.mem_append.mp hc with h1 | h1
    · rcases List.mem_append.mp h1 with h2 | h2
      · exact preHead_not_mem sess ext _ (by simp) (by simp) (fun v => by simp) h2
      · exact hnofs.1 h2
    · exact (split_tail_not_setup _ (hcls _ h1)).2.2.2.2.1 rfl
  · intro hc
    rcases List.mem_append.mp hc with h1 | h1
    · rcases List.mem_append.mp h1 with h2 | h2
      · exact preHead_not_mem sess ext _ (by simp) (by simp) (fun v => by simp) h2
      · exact hnofs.2 h2
    · exact (split_tail_not_setup _ (hcls _ h1)).2.2.2.2.2.1 rfl

/-- C2 witness: the amended theorem applied to the concrete dry-run session. -/
theorem C2_dry_run_sandbox_witness :
    sessC2.opts.dry_run = true ∧
    (Event.unveilRoot ∈ (rsync_receiver sessC2 envC2).1 ∧
     Event.unveilLock ∈ (rsync_receiver sessC2 envC2).1 ∧
     Event.mkpath ∉ (rsync_receiver sessC2 envC2).1 ∧
     Event.openRoot ∉ (rsync_receiver sessC2 envC2).1) :=
  ⟨rfl, C2_dry_run_sandbox sessC2 envC2 [fileA] rfl rfl rfl rfl rfl
    (by decide) rfl rfl⟩

lemma preHead_client_head (sess : Sess) (ext : Env)
    (hpl : ext.pledgeOk = true) (hs : sess.opts.server = false) :
    ∃ r, (preHead sess ext).1 = Event.writeInt 0 :: r := by
  unfold preHead pcat stgPledge stgPreamble stgFlist stgIoerr
  by_cases hw : ext.writePreambleOk = true <;> simp [hpl, hs, hw]

lemma preHead_server_no_write (sess : Sess) (ext : Env)
    (hs : sess.opts.server = true) (v : Int) :
    Event.writeInt v ∉ (preHead sess ext).1 := by
  intro hc
  unfold preHead pcat stgPledge stgPreamble stgFlist stgIoerr at hc
  rcases hio : ext.ioerror with _ | w <;> rw [hio] at hc <;>
    split_ifs at hc <;> simp_all

lemma preloop_head_shape (sess : Sess) (ext : Env) :
    ∃ r, (preloop sess ext).1 = (preHead sess ext).1 ++ r := by
  rcases preloop_cases sess ext with h | h | h
  · exact ⟨[], by simp [h]⟩
  · exact ⟨[Event.warnEmpty], h⟩
  · exact ⟨(preTail sess ext).1, h⟩

/-- C5 counterexample: a top-level (client, non-server) session in which the
zero preamble IS written on the outbound stream, refuting the claim that it
is written only when the process is not the top-level driver. -/
theorem C5_counterexample :
    sessC5.opts.server = false ∧
    Event.writeInt 0 ∈ (rsync_receiver sessC5 envC5).1 := by
  decide

/-- C5 (amended): the zero preamble is written exactly in the top-level
(non-server) role, as the very first event of the session and hence before
the file list is received; in the embedded (server) role it is never
written. -/
theorem C5_preamble (sess : Sess) (ext : Env) (hpl : ext.pledgeOk = true) :
    (sess.opts.server = false →
      ∃ r, (rsync_receiver sess ext).1 = Event.writeInt 0 :: r) ∧
    (sess.opts.server = true →
      Event.writeInt 0 ∉ (rsync_receiver sess ext).1) := by
  obtain ⟨t2, heq, hcls⟩ := receiver_split sess ext
  constructor
  · intro hs
    obtain ⟨r1, hr1⟩ := preHead_client_head sess ext hpl hs
    obtain ⟨r2, hr2⟩ := preloop_head_shape sess ext
    refine ⟨r1 ++ r2 ++ t2, ?_⟩
    rw [heq, hr2, hr1]
    simp
  · intro hs hc
    rw [heq] at hc
    rcases List.mem_append.mp hc with h1 | h1
    · obtain ⟨r2, hr2⟩ := preloop_head_shape sess ext
      rw [hr2] at h1
      rcases List.mem_append.mp h1 with h2 | h2
      · exact preHead_server_no_write sess ext hs 0 h2
      · rcases preloop_cases sess ext with h | h | h
        · rw [hr2] at h
          have : r2 = [] := by
            have hlen := congrArg List.length h
            simp at hlen
            exact hlen
          subst this
          simp at h2
        · rw [hr2] at h
          have hr2e : r2 = [Event.warnEmpty] := by
            exact List.append_cancel_left h
          rw [hr2e] at h2
          simp at h2
        · rw [hr2] at h
          have hr2e : r2 = (preTail sess ext).1 := List.append_cancel_left h
          rw [hr2e] at h2
          have := preTail_mem sess ext _ h2
          simp at this
    · exact (split_tail_not_setup _ (hcls _ h1)).2.2.2.2.2.2.1 rfl

/-- C5 witness: the amended theorem applied to the concrete client session. -/
theorem C5_preamble_witness :
    envC5.pledgeOk = true ∧
    ((sessC5.opts.server = false →
       ∃ r, (rsync_receiver sessC5 envC5).1 = Event.writeInt 0 :: r) ∧
     (sessC5.opts.server = true →
       Event.writeInt 0 ∉ (rsync_receiver sessC5 envC5).1)) :=
  ⟨rfl, C5_preamble sessC5 envC5 rfl⟩

lemma preloop_early (sess : Sess) (ext : Env)
    (hs : sess.opts.server = false) (hpl : ext.pledgeOk = true)
    (hwp : ext.writePreambleOk = true) (hfl : ext.flistRecvResult = some [])
    (hio : ext.ioerror = some 0) :
    preloop sess ext =
      ([Event.writeInt 0, Event.flistRecv, Event.readInt 0, Event.warnEmpty],
        PreOut.earlyOk) := by
  unfold preloop preHead pcat stgPledge stgPreamble stgFlist stgIoerr
  rw [hfl, hio]
  simp [hs, hpl, hwp]

/-- C6: a top-level session that receives an empty file list and a zero
status terminates successfully with a warning, without destination creation,
umask reset, sandboxing, any transfer-loop iteration, or any sentinel. -/
theorem C6_empty_list (sess : Sess) (ext : Env)
    (hs : sess.opts.server = false) (hpl : ext.pledgeOk = true)
    (hwp : ext.writePreambleOk = true) (hfl : ext.flistRecvResult = some [])
    (hio : ext.ioerror = some 0) :
    (rsync_receiver sess ext).2 = true ∧
    Event.warnEmpty ∈ (rsync_receiver sess ext).1 ∧
    ∀ e ∈ (rsync_receiver sess ext).1,
      isFsMutation e = false ∧ e ≠ Event.unveilRoot ∧ e ≠ Event.unveilLock ∧
      isPollEvent e = false ∧ e ≠ Event.writeInt (-1) := by
  have hrec : rsync_receiver sess ext =
      ([Event.writeInt 0, Event.flistRecv, Event.readInt 0, Event.warnEmpty],
        true) := by
    unfold rsync_receiver
    rw [preloop_early sess ext hs hpl hwp hfl hio]
  rw [hrec]
  exact ⟨rfl, by decide, by decide⟩

/-- C6 witness: the theorem applied to the concrete empty-list client
session. -/
theorem C6_empty_list_witness :
    sessC6.opts.server = false ∧ envC6.flistRecvResult = some [] ∧
    ((rsync_receiver sessC6 envC6).2 = true ∧
     Event.warnEmpty ∈ (rsync_receiver sessC6 envC6).1 ∧
     ∀ e ∈ (rsync_receiver sessC6 envC6).1,
       isFsMutation e = false ∧ e ≠ Event.unveilRoot ∧ e ≠ Event.unveilLock ∧
       isPollEvent e = false ∧ e ≠ Event.writeInt (-1)) :=
  ⟨rfl, rfl, C6_empty_list sessC6 envC6 rfl rfl rfl rfl rfl⟩

lemma preHead_fail (sess : Sess) (ext : Env) (v : Int)
    (hio : ext.ioerror = some v) (hv : v ≠ 0) :
    (preHead sess ext).2 = false := by
  unfold preHead pcat stgPledge stgPreamble stgFlist stgIoerr
  rw [hio]
  split_ifs <;> simp_all

lemma preloop_fail_trace (sess : Sess) (ext : Env)
    (hok : (preHead sess ext).2 = false) :
    preloop sess ext = ((preHead sess ext).1, PreOut.failed) := by
  unfold preloop
  rcases hfl : ext.flistRecvResult with _ | fl
  · rfl
  · simp [hok]

/-- C7: if the status integer read after the file list is non-zero, the
session fails, and its trace holds no filesystem mutation and no transfer
activity: no mkpath, no umask reset, no root open, no deletion, no uploader
or downloader invocation, no directory fixup. -/
theorem C7_nonzero_status (sess : Sess) (ext : Env) (v : Int)
    (hio : ext.ioerror = some v) (hv : v ≠ 0) :
    (rsync_receiver sess ext).2 = false ∧
    ∀ e ∈ (rsync_receiver sess ext).1, isFsMutation e = false := by
  have hp := preloop_fail_trace sess ext (preHead_fail sess ext v hio hv)
  unfold rsync_receiver
  rw [hp]
  refine ⟨rfl, ?_⟩
  intro e he
  rcases preHead_mem sess ext e he with h | h | ⟨w, h⟩ <;> subst h <;> rfl

/-- C7 witness: the theorem applied to the concrete session whose status
integer reads as 1. -/
theorem C7_nonzero_status_witness :
    envC7.ioerror = some 1 ∧ (1 : Int) ≠ 0 ∧
    ((rsync_receiver sessC7 envC7).2 = false ∧
     ∀ e ∈ (rsync_receiver sessC7 envC7).1, isFsMutation e = false) :=
  ⟨rfl, by decide, C7_nonzero_status sessC7 envC7 1 rfl (by decide)⟩

lemma preloop_mem (sess : Sess) (ext : Env) :
    ∀ e ∈ (preloop sess ext).1, isPreEvent e = true := by
  intro e he
  have hpre : ∀ x ∈ (preHead sess ext).1, isPreEvent x = true := by
    intro x hx
    rcases preHead_mem sess ext x hx with h | h | ⟨v, h⟩ <;> subst h <;> rfl
  have htail : ∀ x ∈ (preTail sess ext).1, isPreEvent x = true := by
    intro x hx
    have h := preTail_mem sess ext x hx
    simp at h
    rcases h with h | h | h | h | h | h | h <;> subst h <;> rfl
  rcases preloop_cases sess ext with h | h | h <;> rw [h] at he
  · exact hpre e he
  · rcases List.mem_append.mp he with h1 | h1
    · exact hpre e h1
    · simp at h1
      subst h1
      rfl
  · rcases List.mem_append.mp he with h1 | h1
    · exact hpre e h1
    · exact htail e h1

lemma closeout_ok_shape (sess : Sess) (ext : Env)
    (hokc : (closeout sess ext 1).2 = true) :
    (closeout sess ext 1).1 =
      [Event.writeInt (-1), Event.readInt (-1)] ++
      (if sess.opts.server = true then [] else [Event.statsRecv]) ++
      [Event.writeInt (-1)] := by
  unfold closeout closeRest at hokc ⊢
  rcases ha : ext.phaseAck with _ | a
  · split_ifs at hokc ⊢ <;> simp_all
  · by_cases haa : a = -1 <;> split_ifs at hokc ⊢ <;> simp_all

/-- C3 counterexample: the empty-list top-level session succeeds while
sending no sentinel at all, refuting the claim that every session sends the
phase-end sentinel exactly once and the goodbye sentinel exactly once. -/
theorem C3_counterexample :
    (rsync_receiver sessC3 envC3).2 = true ∧
    ((rsync_receiver sessC3 envC3).1.countP
      fun e => decide (e = Event.writeInt (-1))) = 0 := by
  decide

/-- C3 (amended): every session that passes the pre-loop stages (so the
transfer loop runs) and terminates successfully sends the phase-end sentinel
exactly once, reads the -1 phase acknowledgement immediately after it,
requests statistics (top-level only) only after that, and sends exactly one
final goodbye sentinel, last of all. -/
theorem C3_sentinel_order (sess : Sess) (ext : Env) (fl : List FEntry)
    (hpre : (preloop sess ext).2 = PreOut.proceed fl)
    (hok : (rsync_receiver sess ext).2 = true) :
    ∃ pre stats,
      (rsync_receiver sess ext).1 =
        pre ++ [Event.writeInt (-1), Event.readInt (-1)] ++ stats ++
          [Event.writeInt (-1)] ∧
      Event.writeInt (-1) ∉ pre ∧ Event.statsRecv ∉ pre ∧
      stats = (if sess.opts.server = true then [] else [Event.statsRecv]) := by
  have hploop := preloop_mem sess ext
  have hphase := runLoop_phase sess fl.length ext.script initLoopState rfl
  unfold rsync_receiver at hok ⊢
  rcases hp : preloop sess ext with ⟨t, o⟩
  rw [hp] at hok hpre hploop
  simp only [] at hpre
  subst hpre
  simp only [] at hok hploop ⊢
  rcases hr : runLoop sess fl.length initLoopState ext.script with ⟨tl, lo⟩
  try simp only [hr] at hok
  try simp only [hr] at hphase
  have hltl : ∀ e ∈ tl, isLoopEvent e = true := by
    intro e he
    have h2 := runLoop_events sess fl.length ext.script initLoopState e
    rw [hr] at h2
    exact h2 he
  rcases lo with _ | _ | st
  · simp at hok
  · simp at hok
  · rcases hpp : postPhase sess ext fl st.newdir with ⟨tp, ok⟩
    have hptp : ∀ e ∈ tp, isPostEvent e = true := by
      intro e he
      have h2 := postPhase_events sess ext fl st.newdir e
      rw [hpp] at h2
      exact h2 he
    try simp only [hpp] at hok
    try simp only [hpp]
    rcases ok with _ | _
    · simp at hok
    · have hst : st.phase = 1 := hphase.2 st rfl
      rcases hc : closeout sess ext st.phase with ⟨tc, okc⟩
      try simp only [hc] at hok
      try simp only [hc]
      try simp only [] at hok
      try simp only []
      have htc : tc = [Event.writeInt (-1), Event.readInt (-1)] ++
          (if sess.opts.server = true then [] else [Event.statsRecv]) ++
          [Event.writeInt (-1)] := by
        have h2 := closeout_ok_shape sess ext (by rw [← hst, hc]; exact hok)
        rw [← hst, hc] at h2
        exact h2
      refine ⟨t ++ tl ++ tp,
        (if sess.opts.server = true then [] else [Event.statsRecv]), ?_, ?_, ?_, rfl⟩
      · rw [htc]
        simp
      · intro hcm
        rcases List.mem_append.mp hcm with h1 | h1
        · rcases List.mem_append.mp h1 with h2 | h2
          · have h3 := hploop _ h2
            simp [isPreEvent] at h3
          · have h3 := hltl _ h2
            simp [isLoopEvent] at h3
        · have h3 := hptp _ h1
          simp [isPostEvent] at h3
      · intro hcm
        rcases List.mem_append.mp hcm with h1 | h1
        · rcases List.mem_append.mp h1 with h2 | h2
          · have h3 := hploop _ h2
            simp [isPreEvent] at h3
          · have h3 := hltl _ h2
            simp [isLoopEvent] at h3
        · have h3 := hptp _ h1
          simp [isPostEvent] at h3

/-- C3 witness: the amended theorem applied to a concrete one-file client
session that completes successfully. -/
theorem C3_sentinel_order_witness :
    (preloop sessC3w envC3w).2 = PreOut.proceed [fileA] ∧
    (rsync_receiver sessC3w envC3w).2 = true ∧
    (∃ pre stats,
      (rsync_receiver sessC3w envC3w).1 =
        pre ++ [Event.writeInt (-1), Event.readInt (-1)] ++ stats ++
          [Event.writeInt (-1)] ∧
      Event.writeInt (-1) ∉ pre ∧ Event.statsRecv ∉ pre ∧
      stats = (if sessC3w.opts.server = true then [] else [Event.statsRecv])) :=
  ⟨by decide, by decide,
    C3_sentinel_order sessC3w envC3w [fileA] (by decide) (by decide)⟩

lemma post_dir_no_postdir (sess : Sess) (f : FEntry) (newdir utOk fcOk : Bool)
    (idx : Nat) :
    ∀ e ∈ (post_dir sess f newdir utOk fcOk idx).1, isPostDir e = false := by
  intro e he
  have h := post_dir_events sess f newdir utOk fcOk idx e he
  cases e <;> simp_all [isPostMeta, isPostDir]

lemma postRun_count (sess : Sess) (ext : Env) (nd : List Nat) :
    ∀ fl idx, (postRun sess ext nd fl idx).2 = true →
      ((postRun sess ext nd fl idx).1.countP fun e => isPostDir e) =
        (fl.countP fun f => S_ISDIR f.mode) := by
  intro fl
  induction fl with
  | nil => intro idx _; simp [postRun]
  | cons f rest ih =>
    intro idx hok
    by_cases hdir : S_ISDIR f.mode = false
    · simp only [postRun, if_pos hdir] at hok ⊢
      rw [List.countP_cons]
      simp [hdir]
      exact ih (idx + 1) hok
    · have hnd : S_ISDIR f.mode = true := by
        rcases hsd : S_ISDIR f.mode
        · exact absurd hsd hdir
        · rfl
      by_cases hpd : (post_dir sess f (decide (idx ∈ nd)) (ext.utimesOk idx)
          (ext.fchmodOk idx) idx).2 = false
      · simp only [postRun, if_neg hdir, if_pos hpd] at hok
        simp at hok
      · simp only [postRun, if_neg hdir, if_neg hpd] at hok ⊢
        have hz : ((post_dir sess f (decide (idx ∈ nd)) (ext.utimesOk idx)
            (ext.fchmodOk idx) idx).1.countP fun e => isPostDir e) = 0 := by
          rw [List.countP_eq_zero]
          intro e he
          simp [post_dir_no_postdir sess f _ _ _ idx e he]
        simp only [List.countP_append, List.countP_cons]
        rw [hz, ih (idx + 1) hok]
        simp [isPostDir, hnd]
        try omega

lemma postRun_noop (sess : Sess) (ext : Env) (nd : List Nat)
    (hno : sess.opts.dry_run = true ∨ sess.opts.recursive = false) :
    ∀ fl idx, ∀ e ∈ (postRun sess ext nd fl idx).1, isPostDir e = true := by
  have hpd : ∀ f b u fc idx, post_dir sess f b u fc idx = ([], true) := by
    intro f b u fc idx
    unfold post_dir
    rcases hno with h | h
    · rcases hrec : sess.opts.recursive
      · simp
      · simp [h]
    · simp [h]
  intro fl
  induction fl with
  | nil => intro idx e he; simp [postRun] at he
  | cons f rest ih =>
    intro idx e he
    simp only [postRun, hpd] at he
    split at he
    · exact ih (idx + 1) e he
    · split at he
      · simp at he
        subst he
        rfl
      · simp only [List.cons_append, List.nil_append] at he
        rcases List.mem_cons.mp he with h1 | h1
        · subst h1; rfl
        · exact ih (idx + 1) e h1

/-- C9 counterexample: a successful dry-run recursive session with timestamp
preservation and one directory entry: the code makes exactly one
post-processing attempt (the post_dir call) and zero metadata mutations, so
the attempt count can neither equal the directory count and be zero at once,
refuting the claim for this session under either reading of "attempt". -/
theorem C9_counterexample :
    (rsync_receiver sessC9 envC9).2 = true ∧
    sessC9.opts.dry_run = true ∧ sessC9.opts.recursive = true ∧
    envC9.flistRecvResult = some [dirD] ∧
    ([dirD].countP fun f => S_ISDIR f.mode) = 1 ∧
    ((rsync_receiver sessC9 envC9).1.countP fun e => isPostDir e) = 1 ∧
    ((rsync_receiver sessC9 envC9).1.countP fun e => isPostMeta e) = 0 := by
  decide

/-- C9 (amended): when timestamp or permission preservation is requested and
every fixup succeeds, the number of post_dir attempts equals the number of
directory entries of the FileList; and when simulation mode is active or
recursion is disabled, no attempt performs any metadata mutation. -/
theorem C9_fixup_counts (sess : Sess) (ext : Env) (fl : List FEntry) (nd : List Nat)
    (hflag : sess.opts.preserve_times = true ∨ sess.opts.preserve_perms = true)
    (hok : (postPhase sess ext fl nd).2 = true) :
    ((postPhase sess ext fl nd).1.countP fun e => isPostDir e) =
      (fl.countP fun f => S_ISDIR f.mode) ∧
    ((sess.opts.dry_run = true ∨ sess.opts.recursive = false) →
      ∀ e ∈ (postPhase sess ext fl nd).1, isPostMeta e = false) := by
  unfold postPhase at hok ⊢
  rw [if_pos hflag] at hok ⊢
  refine ⟨postRun_count sess ext nd fl 0 hok, ?_⟩
  intro hno e he
  have h := postRun_noop sess ext nd hno fl 0 e he
  cases e <;> simp_all [isPostDir, isPostMeta]

/-- C9 witness: the amended theorem applied to the concrete dry-run session
with one directory entry. -/
theorem C9_fixup_counts_witness :
    sessC9.opts.preserve_times = true ∧
    (postPhase sessC9 envC9 [dirD] []).2 = true ∧
    (((postPhase sessC9 envC9 [dirD] []).1.countP fun e => isPostDir e) =
       ([dirD].countP fun f => S_ISDIR f.mode) ∧
     ((sessC9.opts.dry_run = true ∨ sessC9.opts.recursive = false) →
       ∀ e ∈ (postPhase sessC9 envC9 [dirD] []).1, isPostMeta e = false)) :=
  ⟨rfl, by decide, C9_fixup_counts sessC9 envC9 [dirD] [] (Or.inl rfl) (by decide)⟩

lemma postDirSeq_append (l1 l2 : List Event) :
    postDirSeq (l1 ++ l2) = postDirSeq l1 ++ postDirSeq l2 := by
  induction l1 with
  | nil => rfl
  | cons e r ih =>
    cases e <;> simp [postDirSeq, ih]

lemma postDirSeq_nil_of (l : List Event) (h : ∀ e ∈ l, isPostDir e = false) :
    postDirSeq l = [] := by
  induction l with
  | nil => rfl
  | cons e r ih =>
    have he := h e (List.mem_cons_self e r)
    have hr : ∀ x ∈ r, isPostDir x = false :=
      fun x hx => h x (List.mem_cons_of_mem e hx)
    cases e <;> simp_all [postDirSeq, isPostDir]

lemma postRun_seq (sess : Sess) (ext : Env) (nd : List Nat) :
    ∀ fl idx, (postRun sess ext nd fl idx).2 = true →
      postDirSeq (postRun sess ext nd fl idx).1 = dirIndices fl idx := by
  intro fl
  induction fl with
  | nil => intro idx _; rfl
  | cons f rest ih =>
    intro idx hok
    by_cases hdir : S_ISDIR f.mode = false
    · simp only [postRun, if_pos hdir] at hok ⊢
      rw [ih (idx + 1) hok]
      simp [dirIndices, hdir]
    · have hnd : S_ISDIR f.mode = true := by
        rcases hsd : S_ISDIR f.mode
        · exact absurd hsd hdir
        · rfl
      by_cases hpd : (post_dir sess f (decide (idx ∈ nd)) (ext.utimesOk idx)
          (ext.fchmodOk idx) idx).2 = false
      · simp only [postRun, if_neg hdir, if_pos hpd] at hok
        simp at hok
      · simp only [postRun, if_neg hdir, if_neg hpd] at hok ⊢
        rw [postDirSeq_append]
        have hz : postDirSeq (post_dir sess f (decide (idx ∈ nd)) (ext.utimesOk idx)
            (ext.fchmodOk idx) idx).1 = [] :=
          postDirSeq_nil_of _ (post_dir_no_postdir sess f _ _ _ idx)
        simp [postDirSeq, hz, ih (idx + 1) hok, dirIndices, hnd]

lemma mem_dirIndices (fl : List FEntry) :
    ∀ idx i, i < fl.length → S_ISDIR (entAt fl i).mode = true →
      (idx + i) ∈ dirIndices fl idx := by
  induction fl with
  | nil => intro idx i h; simp at h
  | cons f rest ih =>
    intro idx i hlen hdir
    cases i with
    | zero =>
      have hf : entAt (f :: rest) 0 = f := rfl
      rw [hf] at hdir
      simp [dirIndices, hdir]
    | succ n =>
      have he : entAt (f :: rest) (n + 1) = entAt rest n := rfl
      rw [he] at hdir
      have hlt : n < rest.length := by simpa using hlen
      have hmem := ih (idx + 1) n hlt hdir
      unfold dirIndices
      have harith : idx + (n + 1) = (idx + 1) + n := by omega
      rw [harith]
      split
      · exact List.mem_cons_of_mem _ hmem
      · exact hmem

lemma dirIndices_lb (fl : List FEntry) :
    ∀ idx j, j ∈ dirIndices fl idx → idx ≤ j := by
  induction fl with
  | nil => intro idx j h; simp [dirIndices] at h
  | cons f rest ih =>
    intro idx j h
    unfold dirIndices at h
    split at h
    · rcases List.mem_cons.mp h with h1 | h1
      · subst h1
        exact Nat.le_refl j
      · have := ih (idx + 1) j h1
        omega
    · have := ih (idx + 1) j h
      omega

lemma dirIndices_split (fl : List FEntry) :
    ∀ idx c p, c ∈ dirIndices fl idx → p ∈ dirIndices fl idx → c < p →
      ∃ a b, dirIndices fl idx = a ++ c :: b ∧ p ∈ b := by
  induction fl with
  | nil => intro idx c p hc; simp [dirIndices] at hc
  | cons f rest ih =>
    intro idx c p hc hp hlt
    by_cases hdir : S_ISDIR f.mode = true
    · simp only [dirIndices, if_pos hdir] at hc hp ⊢
      rcases List.mem_cons.mp hc with h1 | h1
      · subst h1
        rcases List.mem_cons.mp hp with h2 | h2
        · omega
        · exact ⟨[], dirIndices rest (c + 1), rfl, h2⟩
      · have hcge := dirIndices_lb rest (idx + 1) c h1
        have hpD : p ∈ dirIndices rest (idx + 1) := by
          rcases List.mem_cons.mp hp with h2 | h2
          · omega
          · exact h2
        obtain ⟨a, b, hab, hpb⟩ := ih (idx + 1) c p h1 hpD hlt
        exact ⟨idx :: a, b, by rw [hab]; simp, hpb⟩
    · simp only [dirIndices, if_neg hdir] at hc hp ⊢
      exact ih (idx + 1) c p hc hp hlt

lemma childrenFirst_lt (fl : List FEntry) (p c : Nat)
    (h : childrenFirstB fl = true) (hp : p < fl.length) (hc : c < fl.length)
    (hdp : S_ISDIR (entAt fl p).mode = true) (hdc : S_ISDIR (entAt fl c).mode = true)
    (hanc : pathAncestor (entAt fl p).path (entAt fl c).path = true) : c < p := by
  unfold childrenFirstB at h
  rw [List.all_eq_true] at h
  have h1 := h p (List.mem_range.mpr hp)
  rw [List.all_eq_true] at h1
  have h2 := h1 c (List.mem_range.mpr hc)
  simp [hdp, hdc, hanc] at h2
  exact h2

/-- C4: with the FileList in the spec-modelled children-before-parents order,
the directory fixup loop (which walks the FileList in index order) applies
every child directory before its parent: in the emitted sequence of post_dir
attempts, the child index appears strictly before the parent index. -/
theorem C4_postorder_fixup (sess : Sess) (ext : Env) (fl : List FEntry)
    (nd : List Nat) (p c : Nat)
    (hcf : childrenFirstB fl = true)
    (hflag : sess.opts.preserve_times = true ∨ sess.opts.preserve_perms = true)
    (hok : (postPhase sess ext fl nd).2 = true)
    (hp : p < fl.length) (hc : c < fl.length)
    (hdp : S_ISDIR (entAt fl p).mode = true)
    (hdc : S_ISDIR (entAt fl c).mode = true)
    (hanc : pathAncestor (entAt fl p).path (entAt fl c).path = true) :
    ∃ a b, postDirSeq (postPhase sess ext fl nd).1 = a ++ c :: b ∧ p ∈ b := by
  have hlt := childrenFirst_lt fl p c hcf hp hc hdp hdc hanc
  unfold postPhase at hok ⊢
  rw [if_pos hflag] at hok ⊢
  rw [postRun_seq sess ext nd fl 0 hok]
  have hcm : c ∈ dirIndices fl 0 := by
    have h2 := mem_dirIndices fl 0 c hc hdc
    simpa using h2
  have hpm : p ∈ dirIndices fl 0 := by
    have h2 := mem_dirIndices fl 0 p hp hdp
    simpa using h2
  exact dirIndices_split fl 0 c p hcm hpm hlt

/-- C4 witness: a two-entry FileList holding a child directory before its
parent, fixed up with the child attempt strictly before the parent attempt. -/
theorem C4_postorder_fixup_witness :
    childrenFirstB [dirChild, dirParent] = true ∧
    (postPhase sessC4 envC4 [dirChild, dirParent] []).2 = true ∧
    (∃ a b, postDirSeq (postPhase sessC4 envC4 [dirChild, dirParent] []).1 =
      a ++ 0 :: b ∧ 1 ∈ b) :=
  ⟨by decide, by decide,
    C4_postorder_fixup sessC4 envC4 [dirChild, dirParent] [] 1 0 (by decide)
      (Or.inl rfl) (by decide) (by decide) (by decide) (by decide) (by decide)
      (by decide)⟩
